import Mathlib

/-!
Shallow embedding of the stream-bit dashboard core (the `BitcoinDashboard`
class in the static JS sources) and proofs about it.

Modelling conventions:
* JS numbers carrying prices are modelled as exact rationals (`Rat`);
  timestamps are epoch milliseconds modelled as `Int`.
* `Date` arithmetic is modelled at UTC (timezone offset 0); `setHours(h,0,0,0)`
  becomes flooring to the hour.  On nonnegative epochs Lean's `Int` `/` and `%`
  (euclidean) agree with JS integer arithmetic on these quantities.
* Label strings produced by `toLocaleTimeString`/`toLocaleDateString` are
  modelled by the inductive `LabelText`, which records exactly the fields the
  source interpolates into the string (hour/minute, the Hoje/Ontem qualifier,
  and the civil day for date-bearing formats).  The civil day is abstracted as
  the epoch day index.
-/

/-- One timestamped price observation (`price_update` payload: `price_brl`,
`timestamp`). -/
structure Observation where
  timestamp : Int
  price : Rat
deriving DecidableEq

def msPerMinute : Int := 60000

def msPerHour : Int := 3600000

def msPerDay : Int := 86400000

/-- Hour-of-day of an epoch-millisecond instant (UTC model of `getHours`). -/
def hourOf (t : Int) : Int := t / msPerHour % 24

/-- Minute-of-hour of an epoch-millisecond instant (UTC model of `getMinutes`). -/
def minuteOf (t : Int) : Int := t / msPerMinute % 60

/-- Epoch day index of an instant; two instants are on the same civil day
(UTC model of `toDateString` comparison) iff their `dayOf` agree. -/
def dayOf (t : Int) : Int := t / msPerDay

/-- UTC model of `setMinutes/setSeconds/setMilliseconds` to zero, i.e. of
`setHours(getHours() - x, 0, 0, 0)` before the hour shift is applied. -/
def hourFloor (t : Int) : Int := t - t % msPerHour

/-- Model of the label strings the dashboard builds. -/
inductive LabelText where
  /-- `HH:MM` from `toLocaleTimeString` with 2-digit hour and minute. -/
  | timeOnly (hour minute : Int) : LabelText
  /-- `Hoje HH:MM`. -/
  | hoje (hour minute : Int) : LabelText
  /-- `Ontem HH:MM`. -/
  | ontem (hour minute : Int) : LabelText
  /-- `dd/mm HH:MM` from `toLocaleDateString` plus `toLocaleTimeString`;
  the civil day is abstracted as the epoch day index. -/
  | dateTime (day hour minute : Int) : LabelText
deriving DecidableEq

/-- The `labelFormat` closure of `createSmartLabelsOnly`.  The two branches for
`hours <= 6` and `hours <= 24` build the identical time-only string, so they
are merged here.  In the `hours > 24` branch the source evaluates
`const today = new Date()` inside the closure, so the produced text depends on
the wall clock `now` at formatting time, which is the second argument. -/
def labelFormat (hours : Nat) (now t : Int) : LabelText :=
  if hours ≤ 24 then
    LabelText.timeOnly (hourOf t) (minuteOf t)
  else if dayOf t = dayOf now then
    LabelText.hoje (hourOf t) (minuteOf t)
  else if dayOf t = dayOf (now - msPerDay) then
    LabelText.ontem (hourOf t) (minuteOf t)
  else
    LabelText.dateTime (dayOf t) (hourOf t) (minuteOf t)

/-- Bucket interval in ms chosen by `createSmartLabelsOnly` from the range. -/
def intervalMillisFor (hours : Nat) : Int :=
  if hours ≤ 6 then msPerHour
  else if hours ≤ 24 then 4 * msPerHour
  else 12 * msPerHour

/-- `startTime` of `createSmartLabelsOnly`:
`startTime.setHours(now.getHours() - shift, 0, 0, 0)` at UTC, i.e. the hour
floor of `now` minus the range shift in hours. -/
def startTimeFor (now : Int) (hours : Nat) : Int :=
  if hours ≤ 6 then hourFloor now - 6 * msPerHour
  else if hours ≤ 24 then hourFloor now - 24 * msPerHour
  else hourFloor now - (hours : Int) * msPerHour

/-- The six ideal bucket instants (`idealTimes`, `totalLabels = 6`). -/
def idealTimes (now : Int) (hours : Nat) : List Int :=
  (List.range 6).map fun i : Nat => startTimeFor now hours + (i : Int) * intervalMillisFor hours

/-- `threshold = 30 * 60 * 1000` in `createSmartLabelsOnly`. -/
def labelThreshold : Int := 1800000

/-- The `idealTimes.forEach` scan that finds the nearest unused bucket:
`best` carries `(closestLabelIndex, closestDistance)`, starting from
`(-1, Infinity)` which is modelled as `none`; a strictly smaller distance
replaces the current best, so the lowest index wins ties.  The `usedLabels`
boolean array is modelled as the set of indices marked used. -/
def closestUnusedAux (used : Finset Nat) (t : Int) :
    Nat → List Int → Option (Nat × Int) → Option (Nat × Int)
  | _, [], best => best
  | i, time :: rest, best =>
    if i ∈ used then closestUnusedAux used t (i + 1) rest best
    else
      match best with
      | none => closestUnusedAux used t (i + 1) rest (some (i, |t - time|))
      | some q =>
        if |t - time| < q.2 then closestUnusedAux used t (i + 1) rest (some (i, |t - time|))
        else closestUnusedAux used t (i + 1) rest best

def closestUnused (ideal : List Int) (used : Finset Nat) (t : Int) : Option (Nat × Int) :=
  closestUnusedAux used t 0 ideal none

/-- The `data.map` loop of `createSmartLabelsOnly`, returning for every point
the claimed bucket index (`none` models the empty-string label).  A bucket is
claimed when the nearest unused bucket lies strictly within `labelThreshold`;
claiming marks it used for the rest of the traversal. -/
def assignBuckets (ideal : List Int) (used : Finset Nat) : List Int → List (Option Nat)
  | [] => []
  | t :: ts =>
    match closestUnused ideal used t with
    | some (i, d) =>
      if d < labelThreshold then some i :: assignBuckets ideal (insert i used) ts
      else none :: assignBuckets ideal used ts
    | none => none :: assignBuckets ideal used ts

/-- `createSmartLabelsOnly(data, hours)`: points are the timestamps of the
chart data (all assumed valid instants; the `isNaN` guard is vacuous in this
model), `now` is the wall clock when the call runs. -/
def createSmartLabelsOnly (now : Int) (hours : Nat) (points : List Int) : List (Option LabelText) :=
  let ideal := idealTimes now hours
  (assignBuckets ideal ∅ points).map fun o => o.map fun i => labelFormat hours now (ideal.getD i 0)

/-- The chart state mutated by `addNewPointToChart` / `updateChart`:
`chart.data.datasets[0].data`, `chart.data.labels` and `this.realTimestamps`. -/
structure ChartWindow where
  data : List Rat
  labels : List (Option LabelText)
  realTimestamps : List Int
deriving DecidableEq

def emptyWindow : ChartWindow := ⟨[], [], []⟩

/-- `shouldShowLabelForNewPoint(newDate, totalPoints, hours)`; the `newDate`
argument is unused by the source body and omitted here. -/
def shouldShowLabelForNewPoint (totalPoints : Nat) (hours : Nat) : Bool :=
  let interval := if hours ≤ 6 then 10 else if hours ≤ 24 then 15 else 20
  totalPoints % interval == 0

/-- The inline label format of `addNewPointToChart` (its `hours <= 6` and
`hours <= 24` branches build the identical time-only string). -/
def newPointLabel (hours : Nat) (t : Int) : LabelText :=
  if hours ≤ 24 then LabelText.timeOnly (hourOf t) (minuteOf t)
  else LabelText.dateTime (dayOf t) (hourOf t) (minuteOf t)

/-- `addNewPointToChart(newData)`: push price, timestamp and label, then if
`data.length > 150` shift the front element off all three arrays
(`const maxPoints = 150`).  The falsy-payload guard on `price_brl`/`timestamp`
is outside the model (wire values are nonempty strings, hence truthy). -/
def addNewPointToChart (hours : Nat) (w : ChartWindow) (o : Observation) : ChartWindow :=
  let data := w.data ++ [o.price]
  let lbl :=
    if shouldShowLabelForNewPoint w.labels.length hours then some (newPointLabel hours o.timestamp)
    else none
  let labels := w.labels ++ [lbl]
  let ts := w.realTimestamps ++ [o.timestamp]
  if data.length > 150 then ⟨data.tail, labels.tail, ts.tail⟩
  else ⟨data, labels, ts⟩

/-- Folding a stream of accepted observations into the chart. -/
def appendAll (hours : Nat) (w : ChartWindow) (obs : List Observation) : ChartWindow :=
  obs.foldl (addNewPointToChart hours) w

/-- JS `Array.prototype.filter` with the index callback, as used by
`smartSampleData`. -/
def filterIdx {α : Type} (p : Nat → Bool) : Nat → List α → List α
  | _, [] => []
  | i, x :: xs => if p i then x :: filterIdx p (i + 1) xs else filterIdx p (i + 1) xs

/-- `smartSampleData(data, maxPoints)`.  For `maxPoints = 0` (and a longer
list) the source computes `step = Math.ceil(len / 0) = Infinity`, and
`index % Infinity === 0` holds exactly for index 0, so only the first element
survives; that JS-number corner case is the `take 1` branch.  Otherwise
`step = ceil(len / maxPoints)` over naturals. -/
def smartSampleData {α : Type} (data : List α) (maxPoints : Nat) : List α :=
  if data.length ≤ maxPoints then data
  else if maxPoints = 0 then data.take 1
  else
    let step := (data.length + maxPoints - 1) / maxPoints
    filterIdx (fun i => i % step == 0) 0 data

/-- The spec's description of the decimation: the subsequence of entries whose
index is divisible by `k`. -/
def everyKth {α : Type} (data : List α) (k : Nat) : List α :=
  filterIdx (fun i => decide (k ∣ i)) 0 data

/-- The chart-update gate in `handleSSEMessage`'s `price_update` branch:
`this.lastPrice === null || Math.abs(newPrice - this.lastPrice) > 0.01`. -/
def acceptsChartUpdate (newPrice : Rat) (lastPrice : Option Rat) : Bool :=
  match lastPrice with
  | none => true
  | some last => decide (|newPrice - last| > 1 / 100)

/-- `updateChart(response)` for a bulk (historical) payload: sort the rows by
timestamp, decimate to 100 points, then derive prices, labels and the
`realTimestamps` tooltip array.  The JS comparator `(a, b) => dateA - dateB`
is a stable ascending sort, modelled by `mergeSort`. -/
def updateChart (now : Int) (hours : Nat) (raw : List Observation) : ChartWindow :=
  let sortedData := raw.mergeSort (fun a b => a.timestamp ≤ b.timestamp)
  let sampledData := smartSampleData sortedData 100
  ⟨sampledData.map (·.price),
   createSmartLabelsOnly now hours (sampledData.map (·.timestamp)),
   sampledData.map (·.timestamp)⟩

/-- Reconnection state owned by the stream client: `retryCount`, `maxRetries`
and `retryDelay` from the dashboard constructor. -/
structure StreamClientState where
  retryCount : Nat
  maxRetries : Nat
  retryDelay : Nat
deriving DecidableEq

/-- Constructor state: `retryCount = 0`, `maxRetries = 5`,
`retryDelay = 1000`. -/
def freshClient : StreamClientState := ⟨0, 5, 1000⟩

/-- Observable effect of one error-handling step: either a reconnect is
scheduled via `setTimeout(..., retryDelay)`, or the client starts the
30-second polling fallback (`startPolling`). -/
inductive StreamAction where
  | reconnectAfter (delayMs : Nat) : StreamAction
  | startPolling (intervalMs : Nat) : StreamAction
deriving DecidableEq

/-- `handleStreamError()`: below the retry budget, schedule a reconnect after
the current `retryDelay`, increment `retryCount` and double the delay capped
at 30000 ms; otherwise fall back to polling every 30000 ms. -/
def handleStreamError (s : StreamClientState) : StreamClientState × StreamAction :=
  if s.retryCount < s.maxRetries then
    ({ s with retryCount := s.retryCount + 1, retryDelay := min (s.retryDelay * 2) 30000 },
     StreamAction.reconnectAfter s.retryDelay)
  else
    (s, StreamAction.startPolling 30000)

/-- The `eventSource.onopen` handler: reset `retryCount` and `retryDelay`. -/
def onOpen (s : StreamClientState) : StreamClientState :=
  { s with retryCount := 0, retryDelay := 1000 }

/-- The actions produced by `n` consecutive transport failures. -/
def errorTrace : Nat → StreamClientState → List StreamAction
  | 0, _ => []
  | n + 1, s => (handleStreamError s).2 :: errorTrace n (handleStreamError s).1

/-- 200 observations with strictly increasing timestamps one second apart and
identical price (the capacity scenario). -/
def scenarioObs : List Observation :=
  (List.range 200).map fun i => ⟨1000 * ((i : Int) + 1), 42⟩

lemma dayOf_sub_msPerDay (x : Int) : dayOf (x - msPerDay) = dayOf x - 1 := by
  simp only [dayOf, msPerDay]
  omega

lemma filterIdx_sublist {α : Type} (p : Nat → Bool) (l : List α) :
    ∀ n, List.Sublist (filterIdx p n l) l := by
  induction l with
  | nil =>
    intro n
    simp [filterIdx]
  | cons x xs ih =>
    intro n
    rw [filterIdx]
    by_cases hp : p n
    · rw [if_pos hp]
      exact (ih (n + 1)).cons₂ x
    · rw [if_neg hp]
      exact (ih (n + 1)).cons x

lemma filterIdx_congr {α : Type} (p q : Nat → Bool) (hpq : ∀ i, p i = q i) (l : List α) :
    ∀ n, filterIdx p n l = filterIdx q n l := by
  induction l with
  | nil => intro n; rfl
  | cons x xs ih =>
    intro n
    rw [filterIdx, filterIdx, hpq n, ih (n + 1)]

/-- Ceiling-division step: going from `n` to `n + 1` indices raises
`(n + k - 1) / k` exactly when `n` is a multiple of `k`. -/
lemma ceil_div_succ (k n : Nat) (hk : 0 < k) :
    (n + k) / k = (n + k - 1) / k + (if n % k = 0 then 1 else 0) := by
  obtain ⟨q, r, hr, rfl⟩ : ∃ q r, r < k ∧ n = k * q + r :=
    ⟨n / k, n % k, Nat.mod_lt _ hk, (Nat.div_add_mod n k).symm⟩
  have hmod : (k * q + r) % k = r := by
    rw [Nat.mul_add_mod, Nat.mod_eq_of_lt hr]
  rw [hmod]
  by_cases h0 : r = 0
  · subst h0
    rw [if_pos rfl]
    have l1 : k * q + 0 + k = k * (q + 1) := by ring
    have l2 : k * q + 0 + k - 1 = k - 1 + k * q := by omega
    rw [l2, l1, Nat.mul_div_cancel_left _ hk, Nat.add_mul_div_left _ _ hk,
      Nat.div_eq_of_lt (by omega)]
    omega
  · rw [if_neg h0]
    have l1 : k * q + r + k = r + k * (q + 1) := by ring
    have l2 : k * q + r + k - 1 = r - 1 + k * (q + 1) := by omega
    rw [l2, l1, Nat.add_mul_div_left _ _ hk, Nat.div_eq_of_lt hr,
      Nat.add_mul_div_left _ _ hk, Nat.div_eq_of_lt (by omega)]
    omega

/-- The number of indices in `[n, n + l.length)` divisible by `k`, as a
ceiling-division difference in telescoped form. -/
lemma length_filterIdx_mod {α : Type} (k : Nat) (hk : 0 < k) (l : List α) :
    ∀ n, (filterIdx (fun i => i % k == 0) n l).length + (n + k - 1) / k =
      (n + l.length + k - 1) / k := by
  induction l with
  | nil =>
    intro n
    simp [filterIdx]
  | cons x xs ih =>
    intro n
    rw [filterIdx]
    have hstep := ceil_div_succ k n hk
    have hidx : n + 1 + k - 1 = n + k := by omega
    have hrhs : n + (x :: xs).length + k - 1 = n + 1 + xs.length + k - 1 := by
      simp only [List.length_cons]
      omega
    by_cases hp : n % k = 0
    · rw [if_pos (by simp [hp]), hrhs, ← ih (n + 1), hidx, hstep, if_pos hp]
      simp only [List.length_cons]
      omega
    · rw [if_neg (by simp [hp]), hrhs, ← ih (n + 1), hidx, hstep, if_neg hp]
      omega

/-- C3 fails as stated at budget 0: the two-element series exceeds the budget,
and the sampled result (`Math.ceil(len / 0) = Infinity`, so only index 0
survives) still has one element, exceeding the budget. -/
theorem c3_counterexample :
    ¬ ((smartSampleData ([1, 2] : List Nat) 0).length ≤ 0) := by decide

/-- C3 amended: for every positive budget `m`, `reduce` returns the series
unchanged when its length is at most `m`, and otherwise returns the
subsequence at indices divisible by `k = ceil(length / m)`, which keeps the
first element and has length at most `m`.  (At budget 0 the length bound
fails, see the counterexample.) -/
theorem c3_reduce_correct {α : Type} (data : List α) (m : Nat) (hm : 1 ≤ m) :
    (data.length ≤ m → smartSampleData data m = data) ∧
    (m < data.length →
      smartSampleData data m = everyKth data ((data.length + m - 1) / m) ∧
      (smartSampleData data m).head? = data.head? ∧
      (smartSampleData data m).length ≤ m) := by
  constructor
  · intro hle
    rw [smartSampleData, if_pos hle]
  · intro hlt
    have hnle : ¬ data.length ≤ m := by omega
    have hm0 : ¬ m = 0 := by omega
    set k := (data.length + m - 1) / m with hk_def
    have hE : smartSampleData data m = filterIdx (fun i => i % k == 0) 0 data := by
      rw [smartSampleData, if_neg hnle, if_neg hm0]
    have hkm : data.length ≤ m * k := by
      refine (ceilDiv_le_iff_le_mul (Nat.lt_of_lt_of_le Nat.zero_lt_one hm)).1 ?_
      exact le_of_eq (by rw [Nat.ceilDiv_eq_add_pred_div, hk_def])
    have hk0 : 0 < k := by
      rcases Nat.eq_zero_or_pos k with h | h
      · rw [h, Nat.mul_zero] at hkm
        omega
      · exact h
    refine ⟨?_, ?_, ?_⟩
    · rw [hE, everyKth]
      refine filterIdx_congr _ _ (fun i => ?_) data 0
      by_cases h : i % k = 0
      · simp [h, Nat.dvd_iff_mod_eq_zero]
      · simp [h, Nat.dvd_iff_mod_eq_zero]
    · rw [hE]
      cases data with
      | nil => rfl
      | cons x xs =>
        rw [filterIdx, if_pos (by simp)]
        rfl
    · have hcount := length_filterIdx_mod k hk0 data 0
      have h01 : (0 + k - 1) / k = 0 := Nat.div_eq_of_lt (by omega)
      have h02 : 0 + data.length + k - 1 = data.length + k - 1 := by omega
      rw [h01, h02, Nat.add_zero] at hcount
      have hbound : (data.length + k - 1) / k ≤ m := by
        rw [← Nat.ceilDiv_eq_add_pred_div]
        exact (ceilDiv_le_iff_le_mul hk0).2 (by rwa [Nat.mul_comm] at hkm)
      rw [hE, hcount]
      exact hbound

theorem c3_reduce_correct_witness :
    (smartSampleData ([10, 20, 30] : List Nat) 5 = [10, 20, 30] ∧
      smartSampleData ([10, 20, 30, 40] : List Nat) 3 = everyKth [10, 20, 30, 40] 2 ∧
      (smartSampleData ([10, 20, 30, 40] : List Nat) 3).head? = some 10 ∧
      (smartSampleData ([10, 20, 30, 40] : List Nat) 3).length ≤ 3) :=
  ⟨(c3_reduce_correct [10, 20, 30] 5 (by decide)).1 (by decide),
   (c3_reduce_correct [10, 20, 30, 40] 3 (by decide)).2 (by decide)⟩

/-- C2: from a fresh client the first five consecutive failures schedule
reconnects after 1s, 2s, 4s, 8s, 16s; the 6th failure schedules no reconnect
and falls back to polling every 30s; a successful open resets the attempt
counter to 0 and the delay to 1s; below the budget each failure schedules the
current delay, increments the counter, and doubles the delay capped at 30s. -/
theorem c2_reconnect_backoff :
    errorTrace 6 freshClient =
      [StreamAction.reconnectAfter 1000, StreamAction.reconnectAfter 2000,
       StreamAction.reconnectAfter 4000, StreamAction.reconnectAfter 8000,
       StreamAction.reconnectAfter 16000, StreamAction.startPolling 30000] ∧
    (∀ s : StreamClientState,
      (onOpen s).retryCount = 0 ∧ (onOpen s).retryDelay = 1000 ∧
        (onOpen s).maxRetries = s.maxRetries) ∧
    (∀ s : StreamClientState, s.retryCount < s.maxRetries →
      (handleStreamError s).2 = StreamAction.reconnectAfter s.retryDelay ∧
        (handleStreamError s).1.retryCount = s.retryCount + 1 ∧
        (handleStreamError s).1.retryDelay = min (s.retryDelay * 2) 30000 ∧
        (handleStreamError s).1.retryDelay ≤ 30000) ∧
    (∀ s : StreamClientState, ¬ s.retryCount < s.maxRetries →
      handleStreamError s = (s, StreamAction.startPolling 30000)) := by
  refine ⟨by decide, fun s => ⟨rfl, rfl, rfl⟩, fun s h => ?_, fun s h => ?_⟩
  · rw [handleStreamError, if_pos h]
    exact ⟨rfl, rfl, rfl, Nat.min_le_right _ _⟩
  · rw [handleStreamError, if_neg h]

theorem c2_reconnect_backoff_witness :
    (handleStreamError ⟨2, 5, 4000⟩).2 = StreamAction.reconnectAfter 4000 ∧
    handleStreamError ⟨5, 5, 30000⟩ = (⟨5, 5, 30000⟩, StreamAction.startPolling 30000) :=
  ⟨(c2_reconnect_backoff.2.2.1 ⟨2, 5, 4000⟩ (by decide)).1,
   c2_reconnect_backoff.2.2.2 ⟨5, 5, 30000⟩ (by decide)⟩

/-- C5: the chart-update gate accepts a price exactly when no previous price
was recorded or the absolute difference exceeds 0.01; in particular it rejects
an identical price, accepts a price 0.02 away, and accepts when no previous
price exists. -/
theorem c5_change_detector :
    (∀ (p : Rat) (l : Option Rat),
      acceptsChartUpdate p l = true ↔ l = none ∨ ∃ q, l = some q ∧ |p - q| > 1 / 100) ∧
    (∀ p : Rat, acceptsChartUpdate p (some p) = false) ∧
    (∀ p : Rat, acceptsChartUpdate p (some (p + 2 / 100)) = true) ∧
    (∀ p : Rat, acceptsChartUpdate p none = true) := by
  refine ⟨fun p l => ?_, fun p => ?_, fun p => ?_, fun p => rfl⟩
  · cases l with
    | none => simp [acceptsChartUpdate]
    | some q => simp [acceptsChartUpdate]
  · simp [acceptsChartUpdate]
  · simp only [acceptsChartUpdate, decide_eq_true_eq]
    have h50 : p - (p + 2 / 100) = -(1 / 50 : Rat) := by ring
    rw [h50, abs_neg, abs_of_pos (by norm_num : (0 : Rat) < 1 / 50)]
    norm_num

/-- C8: decimation does not guarantee the last element survives: the series
`[1, 2, 3, 4]` with budget 3 has length above budget, its last element is 4,
and the reduced series `[1, 3]` does not contain it. -/
theorem c8_last_point_not_retained :
    ([1, 2, 3, 4] : List Nat).length > 3 ∧
    smartSampleData ([1, 2, 3, 4] : List Nat) 3 = [1, 3] ∧
    ([1, 2, 3, 4] : List Nat).getLast? = some 4 ∧
    (4 : Nat) ∉ smartSampleData ([1, 2, 3, 4] : List Nat) 3 := by decide

/-- C6 fails as stated: appending the same observation twice is not the same
as appending it once — the second append pushes a second copy. -/
theorem c6_counterexample :
    addNewPointToChart 24 (addNewPointToChart 24 emptyWindow ⟨1000, 5⟩) ⟨1000, 5⟩ ≠
      addNewPointToChart 24 emptyWindow ⟨1000, 5⟩ := by decide

/-- Below capacity the append is a pure push on the price and timestamp
arrays. -/
lemma addNewPointToChart_push (hours : Nat) (w : ChartWindow) (o : Observation)
    (h : w.data.length ≤ 149) :
    (addNewPointToChart hours w o).data = w.data ++ [o.price] ∧
    (addNewPointToChart hours w o).realTimestamps = w.realTimestamps ++ [o.timestamp] := by
  have h1 : ¬ ((w.data ++ [o.price]).length > 150) := by
    simp only [List.length_append, List.length_cons, List.length_nil]
    omega
  rw [addNewPointToChart, if_neg h1]
  exact ⟨rfl, rfl⟩

/-- C6 amended: the append is an unconditional push (with front eviction past
capacity), not an upsert.  Appending the same observation twice to a window
holding at most 148 entries appends two copies of its price and timestamp, so
the result differs from appending it once. -/
theorem c6_append_not_idempotent (hours : Nat) (w : ChartWindow) (o : Observation)
    (h : w.data.length ≤ 148) :
    (addNewPointToChart hours (addNewPointToChart hours w o) o).data =
      w.data ++ [o.price, o.price] ∧
    (addNewPointToChart hours (addNewPointToChart hours w o) o).realTimestamps =
      w.realTimestamps ++ [o.timestamp, o.timestamp] ∧
    (addNewPointToChart hours w o).data = w.data ++ [o.price] ∧
    addNewPointToChart hours (addNewPointToChart hours w o) o ≠ addNewPointToChart hours w o := by
  have p1 := addNewPointToChart_push hours w o (by omega)
  have hlen : (addNewPointToChart hours w o).data.length ≤ 149 := by
    rw [p1.1]
    simp only [List.length_append, List.length_cons, List.length_nil]
    omega
  have p2 := addNewPointToChart_push hours (addNewPointToChart hours w o) o hlen
  refine ⟨?_, ?_, p1.1, ?_⟩
  · rw [p2.1, p1.1, List.append_assoc]
    rfl
  · rw [p2.2, p1.2, List.append_assoc]
    rfl
  · intro heq
    have hcontra := congrArg (fun win : ChartWindow => win.data.length) heq
    simp only at hcontra
    rw [p2.1, p1.1] at hcontra
    simp only [List.length_append, List.length_cons, List.length_nil] at hcontra
    omega

theorem c6_append_not_idempotent_witness :
    (addNewPointToChart 24 (addNewPointToChart 24 emptyWindow ⟨1000, 5⟩) ⟨1000, 5⟩).data =
      [] ++ [(5 : Rat), 5] ∧
    (addNewPointToChart 24 (addNewPointToChart 24 emptyWindow ⟨1000, 5⟩) ⟨1000, 5⟩).realTimestamps =
      [] ++ [(1000 : Int), 1000] ∧
    (addNewPointToChart 24 emptyWindow ⟨1000, 5⟩).data = [] ++ [(5 : Rat)] ∧
    addNewPointToChart 24 (addNewPointToChart 24 emptyWindow ⟨1000, 5⟩) ⟨1000, 5⟩ ≠
      addNewPointToChart 24 emptyWindow ⟨1000, 5⟩ :=
  c6_append_not_idempotent 24 emptyWindow ⟨1000, 5⟩ (by decide)

/-- One append keeps the three chart arrays aligned and at most 150 long. -/
lemma addNewPointToChart_bounds (hours : Nat) (w : ChartWindow) (o : Observation)
    (h : w.data.length ≤ 150 ∧ w.labels.length = w.data.length ∧
      w.realTimestamps.length = w.data.length) :
    (addNewPointToChart hours w o).data.length ≤ 150 ∧
    (addNewPointToChart hours w o).labels.length = (addNewPointToChart hours w o).data.length ∧
    (addNewPointToChart hours w o).realTimestamps.length =
      (addNewPointToChart hours w o).data.length := by
  obtain ⟨h1, h2, h3⟩ := h
  rw [addNewPointToChart]
  by_cases hc : (w.data ++ [o.price]).length > 150
  · rw [if_pos hc]
    simp only [List.length_tail, List.length_append, List.length_cons, List.length_nil] at *
    omega
  · rw [if_neg hc]
    simp only [List.length_append, List.length_cons, List.length_nil] at *
    omega

lemma appendAll_bounds (hours : Nat) (obs : List Observation) :
    ∀ w : ChartWindow,
      (w.data.length ≤ 150 ∧ w.labels.length = w.data.length ∧
        w.realTimestamps.length = w.data.length) →
      ((appendAll hours w obs).data.length ≤ 150 ∧
        (appendAll hours w obs).labels.length = (appendAll hours w obs).data.length ∧
        (appendAll hours w obs).realTimestamps.length =
          (appendAll hours w obs).data.length) := by
  induction obs with
  | nil => exact fun w h => h
  | cons o rest ih => exact fun w h => ih _ (addNewPointToChart_bounds hours w o h)

set_option maxRecDepth 100000 in
/-- C1: the chart arrays never exceed 150 entries under any sequence of
appends from the empty window; at capacity an append evicts the oldest entry
(the front of each array); and appending the 200-observation scenario leaves
exactly the last 150 observations in order. -/
theorem c1_window_capacity :
    (∀ (hours : Nat) (obs : List Observation),
      (appendAll hours emptyWindow obs).data.length ≤ 150 ∧
        (appendAll hours emptyWindow obs).labels.length ≤ 150 ∧
        (appendAll hours emptyWindow obs).realTimestamps.length ≤ 150) ∧
    (∀ (hours : Nat) (w : ChartWindow) (o : Observation),
      w.data.length = 150 → w.realTimestamps.length = 150 →
      (addNewPointToChart hours w o).data = w.data.tail ++ [o.price] ∧
        (addNewPointToChart hours w o).realTimestamps =
          w.realTimestamps.tail ++ [o.timestamp]) ∧
    ((appendAll 24 emptyWindow scenarioObs).data = List.replicate 150 42 ∧
      (appendAll 24 emptyWindow scenarioObs).realTimestamps =
        (List.range 150).map fun i => 1000 * ((i : Int) + 51)) := by
  refine ⟨fun hours obs => ?_, fun hours w o hd ht => ?_, by decide⟩
  · have h := appendAll_bounds hours obs emptyWindow (by simp [emptyWindow])
    omega
  · have hc : (w.data ++ [o.price]).length > 150 := by
      simp only [List.length_append, List.length_cons, List.length_nil]
      omega
    rw [addNewPointToChart, if_pos hc]
    constructor
    · show (w.data ++ [o.price]).tail = w.data.tail ++ [o.price]
      cases hw : w.data with
      | nil => rw [hw] at hd; simp at hd
      | cons a as => simp
    · show (w.realTimestamps ++ [o.timestamp]).tail = w.realTimestamps.tail ++ [o.timestamp]
      cases hw : w.realTimestamps with
      | nil => rw [hw] at ht; simp at ht
      | cons a as => simp

theorem c1_window_capacity_witness :
    (addNewPointToChart 24
        ⟨List.replicate 150 7, List.replicate 150 none, List.replicate 150 3⟩ ⟨9999, 8⟩).data =
      (List.replicate 150 (7 : Rat)).tail ++ [8] ∧
    (addNewPointToChart 24
        ⟨List.replicate 150 7, List.replicate 150 none, List.replicate 150 3⟩
        ⟨9999, 8⟩).realTimestamps = (List.replicate 150 (3 : Int)).tail ++ [9999] :=
  c1_window_capacity.2.1 24
    ⟨List.replicate 150 7, List.replicate 150 none, List.replicate 150 3⟩ ⟨9999, 8⟩
    (by simp) (by simp)

/-- C7 fails as stated: appending an observation with an older timestamp than
the current newest leaves the timestamp array unsorted. -/
theorem c7_counterexample :
    ¬ ((appendAll 24 emptyWindow [⟨2000, 5⟩, ⟨1000, 6⟩]).realTimestamps.Pairwise (· < ·)) := by
  decide

lemma smartSampleData_sublist {α : Type} (data : List α) (m : Nat) :
    List.Sublist (smartSampleData data m) data := by
  rw [smartSampleData]
  by_cases h1 : data.length ≤ m
  · rw [if_pos h1]
  · rw [if_neg h1]
    by_cases h2 : m = 0
    · rw [if_pos h2]
      exact List.take_sublist _ _
    · rw [if_neg h2]
      exact filterIdx_sublist _ _ _

/-- C7 amended: the append path pushes unconditionally, so sortedness with
unique timestamps is preserved only when each appended timestamp strictly
exceeds every timestamp in the window; the bulk-reload path sorts its input
by timestamp, so its result is always sorted (non-strictly: duplicate input
timestamps are retained). -/
theorem c7_sorted_conditional :
    (∀ (hours : Nat) (w : ChartWindow) (o : Observation),
      w.realTimestamps.Pairwise (· < ·) →
      (∀ t ∈ w.realTimestamps, t < o.timestamp) →
      (addNewPointToChart hours w o).realTimestamps.Pairwise (· < ·)) ∧
    (∀ (now : Int) (hours : Nat) (raw : List Observation),
      (updateChart now hours raw).realTimestamps.Pairwise (· ≤ ·)) := by
  constructor
  · intro hours w o hsort hlt
    have hp : (w.realTimestamps ++ [o.timestamp]).Pairwise (· < ·) :=
      List.pairwise_append.2 ⟨hsort, List.pairwise_singleton _ _, by simpa using hlt⟩
    rw [addNewPointToChart]
    by_cases hc : (w.data ++ [o.price]).length > 150
    · rw [if_pos hc]
      exact List.Pairwise.sublist (List.tail_sublist _) hp
    · rw [if_neg hc]
      exact hp
  · intro now hours raw
    have hsorted : (raw.mergeSort fun a b => a.timestamp ≤ b.timestamp).Pairwise
        (fun a b => a.timestamp ≤ b.timestamp) := by
      have h := @List.sorted_mergeSort Observation
        (fun a b => decide (a.timestamp ≤ b.timestamp))
        (fun a b c hab hbc => by
          simp only [decide_eq_true_eq] at *
          omega)
        (fun a b => by
          simp only [Bool.or_eq_true, decide_eq_true_eq]
          omega)
        raw
      exact h.imp fun hab => of_decide_eq_true hab
    have hsub : List.Sublist
        (smartSampleData (raw.mergeSort fun a b => a.timestamp ≤ b.timestamp) 100)
        (raw.mergeSort fun a b => a.timestamp ≤ b.timestamp) :=
      smartSampleData_sublist _ _
    rw [updateChart]
    show ((smartSampleData (raw.mergeSort fun a b => a.timestamp ≤ b.timestamp) 100).map
      (·.timestamp)).Pairwise (· ≤ ·)
    rw [List.pairwise_map]
    exact List.Pairwise.sublist hsub hsorted

theorem c7_sorted_conditional_witness :
    (addNewPointToChart 24 ⟨[1], [none], [1000]⟩ ⟨2000, 2⟩).realTimestamps.Pairwise (· < ·) :=
  c7_sorted_conditional.1 24 ⟨[1], [none], [1000]⟩ ⟨2000, 2⟩ (by decide) (by decide)

/-- Any best candidate the bucket scan returns is an unused index of the
ideal-times list, with the recorded distance from the point to that bucket. -/
lemma closestUnusedAux_spec (used : Finset Nat) (t : Int) (ideal : List Int) :
    ∀ (l : List Int) (n : Nat) (best : Option (Nat × Int)),
      (∀ i d, best = some (i, d) → i ∉ used ∧
        ∃ time, ideal[i]? = some time ∧ d = |t - time|) →
      (∀ j, j < l.length → l[j]? = ideal[n + j]?) →
      ∀ i d, closestUnusedAux used t n l best = some (i, d) →
        i ∉ used ∧ ∃ time, ideal[i]? = some time ∧ d = |t - time| := by
  intro l
  induction l with
  | nil =>
    intro n best hbest hlink i d h
    exact hbest i d h
  | cons time rest ih =>
    intro n best hbest hlink i d h
    have hhead : ideal[n]? = some time := by
      have h0 := hlink 0 (by simp)
      rw [List.getElem?_cons_zero] at h0
      rw [Nat.add_zero] at h0
      exact h0.symm
    have hlink' : ∀ j, j < rest.length → rest[j]? = ideal[n + 1 + j]? := by
      intro j hj
      have hjj := hlink (j + 1) (by simp only [List.length_cons]; omega)
      rw [List.getElem?_cons_succ] at hjj
      rwa [show n + (j + 1) = n + 1 + j by omega] at hjj
    simp only [closestUnusedAux] at h
    by_cases hu : n ∈ used
    · rw [if_pos hu] at h
      exact ih (n + 1) best hbest hlink' i d h
    · rw [if_neg hu] at h
      cases best with
      | none =>
        refine ih (n + 1) (some (n, |t - time|)) ?_ hlink' i d h
        intro i' d' he
        rw [Option.some_inj, Prod.mk.injEq] at he
        exact he.1 ▸ he.2 ▸ ⟨hu, time, hhead, rfl⟩
      | some q =>
        have h' : (if |t - time| < q.2 then
            closestUnusedAux used t (n + 1) rest (some (n, |t - time|))
          else closestUnusedAux used t (n + 1) rest (some q)) = some (i, d) := h
        by_cases hlt : |t - time| < q.2
        · rw [if_pos hlt] at h'
          refine ih (n + 1) (some (n, |t - time|)) ?_ hlink' i d h'
          intro i' d' he
          rw [Option.some_inj, Prod.mk.injEq] at he
          exact he.1 ▸ he.2 ▸ ⟨hu, time, hhead, rfl⟩
        · rw [if_neg hlt] at h'
          exact ih (n + 1) (some q) hbest hlink' i d h'

lemma closestUnused_spec (ideal : List Int) (used : Finset Nat) (t : Int) (i : Nat) (d : Int)
    (h : closestUnused ideal used t = some (i, d)) :
    i ∉ used ∧ ∃ time, ideal[i]? = some time ∧ d = |t - time| := by
  refine closestUnusedAux_spec used t ideal ideal 0 none (fun i' d' he => by cases he)
    (fun j hj => by rw [Nat.zero_add]) i d h

lemma assignBuckets_cons_none (ideal : List Int) (used : Finset Nat) (t : Int) (ts : List Int)
    (h : closestUnused ideal used t = none) :
    assignBuckets ideal used (t :: ts) = none :: assignBuckets ideal used ts := by
  rw [assignBuckets, h]

lemma assignBuckets_cons_some (ideal : List Int) (used : Finset Nat) (t : Int) (ts : List Int)
    (i : Nat) (d : Int) (h : closestUnused ideal used t = some (i, d)) :
    assignBuckets ideal used (t :: ts) =
      if d < labelThreshold then some i :: assignBuckets ideal (insert i used) ts
      else none :: assignBuckets ideal used ts := by
  rw [assignBuckets, h]

lemma assignBuckets_length (ideal : List Int) :
    ∀ (ps : List Int) (used : Finset Nat),
      (assignBuckets ideal used ps).length = ps.length := by
  intro ps
  induction ps with
  | nil => intro used; rfl
  | cons p rest ih =>
    intro used
    cases h : closestUnused ideal used p with
    | none =>
      rw [assignBuckets_cons_none ideal used p rest h]
      simp [ih]
    | some q =>
      obtain ⟨i, d⟩ := q
      rw [assignBuckets_cons_some ideal used p rest i d h]
      by_cases hd : d < labelThreshold
      · rw [if_pos hd]
        simp [ih]
      · rw [if_neg hd]
        simp [ih]

/-- The claimed bucket indices are unused, in range, and pairwise distinct. -/
lemma assignBuckets_claimed (ideal : List Int) :
    ∀ (ps : List Int) (used : Finset Nat),
      (∀ i ∈ (assignBuckets ideal used ps).filterMap id, i ∉ used ∧ i < ideal.length) ∧
      ((assignBuckets ideal used ps).filterMap id).Nodup := by
  intro ps
  induction ps with
  | nil =>
    intro used
    exact ⟨fun i h => by simp [assignBuckets] at h, by simp [assignBuckets]⟩
  | cons p rest ih =>
    intro used
    cases h : closestUnused ideal used p with
    | none =>
      rw [assignBuckets_cons_none ideal used p rest h]
      simpa [List.filterMap_cons] using ih used
    | some q =>
      obtain ⟨i, d⟩ := q
      rw [assignBuckets_cons_some ideal used p rest i d h]
      by_cases hd : d < labelThreshold
      · rw [if_pos hd]
        obtain ⟨hiu, time, htime, _⟩ := closestUnused_spec ideal used p i d h
        have hi_lt : i < ideal.length := (List.getElem?_eq_some.1 htime).1
        have hrec := ih (insert i used)
        constructor
        · intro j hj
          rw [List.filterMap_cons] at hj
          simp only [id_eq] at hj
          rcases List.mem_cons.1 hj with rfl | hj'
          · exact ⟨hiu, hi_lt⟩
          · have hj2 := hrec.1 j hj'
            exact ⟨fun hju => hj2.1 (Finset.mem_insert_of_mem hju), hj2.2⟩
        · rw [List.filterMap_cons]
          simp only [id_eq]
          refine List.nodup_cons.2 ⟨fun hmem => ?_, hrec.2⟩
          exact (hrec.1 i hmem).1 (Finset.mem_insert_self i used)
      · rw [if_neg hd]
        simpa [List.filterMap_cons] using ih used

lemma countP_isSome_filterMap {β : Type} (l : List (Option β)) :
    l.countP (fun o => o.isSome) = (l.filterMap id).length := by
  induction l with
  | nil => rfl
  | cons o rest ih =>
    cases o with
    | none => simpa [List.countP_cons, List.filterMap_cons] using ih
    | some b => simpa [List.countP_cons, List.filterMap_cons] using ih

lemma idealTimes_getD (now : Int) (hours : Nat) (i : Nat) (h : i < 6) :
    (idealTimes now hours).getD i 0 =
      startTimeFor now hours + (i : Int) * intervalMillisFor hours := by
  have hr : (List.range 6)[i]? = some i := List.getElem?_range h
  rw [idealTimes, List.getD_eq_getElem?_getD, List.getElem?_map, hr]
  rfl

lemma intervalMillisFor_pos (hours : Nat) : 0 < intervalMillisFor hours := by
  rw [intervalMillisFor]
  split
  · norm_num [msPerHour]
  · split
    · norm_num [msPerHour]
    · norm_num [msPerHour]

/-- C4: label assignment returns one label per point with at most 6 of them
non-empty, the claimed bucket indices are pairwise distinct, and so are the
claimed bucket instants — a bucket, once claimed, is never reassigned. -/
theorem c4_label_assignment (now : Int) (hours : Nat) (points : List Int) :
    (createSmartLabelsOnly now hours points).length = points.length ∧
    (createSmartLabelsOnly now hours points).countP (fun o => o.isSome) ≤ 6 ∧
    ((assignBuckets (idealTimes now hours) ∅ points).filterMap id).Nodup ∧
    (((assignBuckets (idealTimes now hours) ∅ points).filterMap id).map
      (fun i => (idealTimes now hours).getD i 0)).Nodup := by
  have hlen6 : (idealTimes now hours).length = 6 := by
    simp [idealTimes]
  have hclaimed := assignBuckets_claimed (idealTimes now hours) points ∅
  have hbound : ∀ i ∈ (assignBuckets (idealTimes now hours) ∅ points).filterMap id, i < 6 := by
    intro i hi
    have h2 := (hclaimed.1 i hi).2
    omega
  refine ⟨?_, ?_, hclaimed.2, ?_⟩
  · rw [createSmartLabelsOnly, List.length_map, assignBuckets_length]
  · rw [createSmartLabelsOnly]
    have hmapcount : ∀ (l : List (Option Nat)),
        (l.map fun o => o.map fun i =>
          labelFormat hours now ((idealTimes now hours).getD i 0)).countP
            (fun o => o.isSome) = l.countP (fun o => o.isSome) := by
      intro l
      induction l with
      | nil => rfl
      | cons o rest ih =>
        rw [List.map_cons, List.countP_cons, List.countP_cons, ih]
        cases o <;> rfl
    rw [hmapcount, countP_isSome_filterMap]
    calc ((assignBuckets (idealTimes now hours) ∅ points).filterMap id).length
        = ((assignBuckets (idealTimes now hours) ∅ points).filterMap id).toFinset.card :=
          (List.toFinset_card_of_nodup hclaimed.2).symm
      _ ≤ (Finset.range 6).card :=
          Finset.card_le_card fun i hi => Finset.mem_range.2 (hbound i (List.mem_toFinset.1 hi))
      _ = 6 := Finset.card_range 6
  · refine List.Nodup.map_on ?_ hclaimed.2
    intro x hx y hy hxy
    rw [idealTimes_getD now hours x (hbound x hx), idealTimes_getD now hours y (hbound y hy)]
      at hxy
    have hne : intervalMillisFor hours ≠ 0 := ne_of_gt (intervalMillisFor_pos hours)
    have hcast : (x : Int) = (y : Int) := mul_right_cancel₀ hne (add_left_cancel hxy)
    exact_mod_cast hcast

/-- C10: the threshold comparison is strict — a point at distance at least
30 minutes (1800000 ms) from every unused ideal bucket, in particular one
lying exactly 30 minutes from its nearest unused bucket, receives the empty
label. -/
theorem c10_threshold_strict (ideal : List Int) (used : Finset Nat) (t : Int) (ts : List Int)
    (h : ∀ i (hi : i < ideal.length), i ∉ used →
      labelThreshold ≤ |t - ideal.get ⟨i, hi⟩|) :
    (assignBuckets ideal used (t :: ts)).head? = some none := by
  cases hc : closestUnused ideal used t with
  | none =>
    rw [assignBuckets_cons_none ideal used t ts hc]
    rfl
  | some q =>
    obtain ⟨i, d⟩ := q
    obtain ⟨hiu, time, htime, hd⟩ := closestUnused_spec ideal used t i d hc
    obtain ⟨hi, hget⟩ := List.getElem?_eq_some.1 htime
    have hge : labelThreshold ≤ d := by
      rw [hd, ← hget]
      have hh := h i hi hiu
      rwa [List.get_eq_getElem] at hh
    rw [assignBuckets_cons_some ideal used t ts i d hc, if_neg (not_lt.2 hge)]
    rfl

theorem c10_threshold_strict_witness :
    (assignBuckets (idealTimes 21600000 6) ∅ [1800000]).head? = some none :=
  c10_threshold_strict (idealTimes 21600000 6) ∅ 1800000 [] (by decide)

/-- C9 fails as stated: for the 72-hour range the formatter consults the wall
clock, so formatting the epoch instant 0 when `now = 0` (same civil day:
"Hoje 00:00") differs from formatting it one day later ("Ontem 00:00"). -/
theorem c9_counterexample :
    labelFormat 72 0 0 ≠ labelFormat 72 86400000 0 := by decide

/-- C9 amended: label formatting is a pure function of `(instant, rangeHours)`
for ranges of at most 24 hours; for longer ranges it additionally depends on
the current civil day (through the Hoje/Ontem qualifiers), and is pure given
that day. -/
theorem c9_format_purity (hours : Nat) (now now' t : Int)
    (h : hours ≤ 24 ∨ dayOf now = dayOf now') :
    labelFormat hours now t = labelFormat hours now' t := by
  by_cases h24 : hours ≤ 24
  · simp [labelFormat, h24]
  · have hday : dayOf now = dayOf now' := h.resolve_left h24
    simp [labelFormat, h24, hday, dayOf_sub_msPerDay]

theorem c9_format_purity_witness :
    labelFormat 6 0 0 = labelFormat 6 86400000 0 :=
  c9_format_purity 6 0 86400000 0 (Or.inl (by decide))
